import Mathlib

/-!
Verification development for a non-destructive video editor.

The embedding covers three source modules:
* `timeline_manager.py` — the clip registry (global timeline) and the
  global-time → (clip, local-time) query;
* `main_window.py` (`apply_cut`) — the keep-segment interval editor;
* `video_engine.py` (`FFmpegCommandBuilder.build_command`) — the export
  command compiler.

Python machine integers are modelled as `Int`.  The two places where the
source divides milliseconds by `1000.0` (a float) are modelled with `ℚ`;
every concrete value appearing in the theorems below is exactly
representable in binary floating point, so the rational model agrees with
the float computation there.  The ffmpeg argument vector (a Python
`List[str]`) is modelled structurally: plain flags stay strings, while the
`-i` input declarations, the filter-graph expression, the `-map` selectors
and the frame-rate value are kept as structured constructors carrying the
same information the source interpolates into strings.  Filesystem checks
(`os.path.exists`) are modelled by an explicit oracle `String → Bool`, and
exceptions by `Except String`.
-/

/-! ## Data model (`models.py`) -/

/-- Embeds `models.Segment`: a half-open keep interval `[start_ms, end_ms)`. -/
structure Segment where
  start_ms : Int
  end_ms : Int
deriving DecidableEq, Repr

/-- Embeds `models.SourceClip`: one source file placed on the global timeline. -/
structure SourceClip where
  path : String
  duration_ms : Int
  width : Int
  height : Int
  global_start_ms : Int
  global_end_ms : Int
deriving DecidableEq, Repr

/-- Embeds `models.ExportSettings`.  `fps` (a Python float) is modelled as `ℚ`. -/
structure ExportSettings where
  output_path : String
  format : String
  bitrate_mbps : Int
  width : Int
  height : Int
  use_external_audio : Bool
  external_audio_path : Option String
  fps : ℚ
  use_gpu : Bool
deriving DecidableEq, Repr

/-! ## Clip registry (`timeline_manager.py`) -/

/-- State of `TimelineManager.__init__`: the ordered playlist. -/
structure TimelineManager where
  playlist : List SourceClip
deriving DecidableEq, Repr

/-- Value of `self.playlist[-1].global_end_ms` if the playlist is non-empty, else `0`
(the shared shape of `add_clip`'s start computation and
`get_total_duration`). -/
def lastEndOr0 (l : List SourceClip) : Int :=
  match l.getLast? with
  | none => 0
  | some c => c.global_end_ms

/-- Embeds `TimelineManager.add_clip`: append a clip whose global span starts at the
previous last clip's `global_end_ms` (0 for an empty playlist). -/
def TimelineManager.add_clip (tm : TimelineManager) (path : String)
    (duration_ms width height : Int) : TimelineManager :=
  let global_start := lastEndOr0 tm.playlist
  ⟨tm.playlist ++
    [⟨path, duration_ms, width, height, global_start, global_start + duration_ms⟩]⟩

/-- Embeds `TimelineManager.get_total_duration`. -/
def TimelineManager.get_total_duration (tm : TimelineManager) : Int :=
  lastEndOr0 tm.playlist

/-- The `for clip in self.playlist` membership scan inside
`get_clip_at_global_time`. -/
def locateLoop : List SourceClip → Int → Option SourceClip × Int
  | [], _ => (none, 0)
  | c :: rest, g =>
    if c.global_start_ms ≤ g ∧ g < c.global_end_ms then
      (some c, g - c.global_start_ms)
    else locateLoop rest g

/-- Embeds `TimelineManager.get_clip_at_global_time`: empty registry returns
`(none, 0)`; a negative query is clamped to `0`; a query at or past the
total duration returns `(none, 0)`; otherwise the playlist is scanned for
the clip whose half-open span contains the query. -/
def TimelineManager.get_clip_at_global_time (tm : TimelineManager)
    (global_ms : Int) : Option SourceClip × Int :=
  if tm.playlist.isEmpty then (none, 0)
  else
    let g := if global_ms < 0 then 0 else global_ms
    if tm.get_total_duration ≤ g then (none, 0)
    else locateLoop tm.playlist g

/-- Argument record for one `add_clip` call. -/
structure ClipSpec where
  path : String
  duration_ms : Int
  width : Int
  height : Int
deriving DecidableEq, Repr

/-- A registry built by a sequence of `add_clip` calls starting from the
empty registry. -/
def buildTimeline (specs : List ClipSpec) : TimelineManager :=
  specs.foldl
    (fun tm sp => tm.add_clip sp.path sp.duration_ms sp.width sp.height) ⟨[]⟩

/-! ## Segment editor (`main_window.py`, `apply_cut`) -/

/-- The classification of one existing segment against the cut range
`[selS, selE)` — the body of the `for segment in self.segments` loop in
`apply_cut` (cases 1, 2 and the three partial-overlap sub-cases). -/
def processSeg (selS selE : Int) (seg : Segment) : List Segment :=
  if selS ≤ seg.start_ms ∧ selE ≥ seg.end_ms then []
  else if selE ≤ seg.start_ms ∨ selS ≥ seg.end_ms then [seg]
  else if selS ≤ seg.start_ms ∧ seg.start_ms < selE then [⟨selE, seg.end_ms⟩]
  else if selS < seg.end_ms ∧ seg.end_ms ≤ selE then [⟨seg.start_ms, selS⟩]
  else if seg.start_ms < selS ∧ selE < seg.end_ms then
    [⟨seg.start_ms, selS⟩, ⟨selE, seg.end_ms⟩]
  else []

/-- Ordering key used by `new_segments.sort(key=lambda x: x.start_ms)`. -/
def segLE (a b : Segment) : Prop := a.start_ms ≤ b.start_ms

instance : DecidableRel segLE := fun a b =>
  inferInstanceAs (Decidable (a.start_ms ≤ b.start_ms))

instance : IsTotal Segment segLE := ⟨fun a b => Int.le_total a.start_ms b.start_ms⟩

instance : IsTrans Segment segLE := ⟨fun _ _ _ hab hbc => le_trans hab hbc⟩

/-- Embeds `VideoEditor.apply_cut` restricted to its effect on the segment set:
no-op when `sel_start >= sel_end`, else each segment is classified against
the cut range and the result list is re-sorted by `start_ms` (Python's
stable sort, modelled by the stable `insertionSort`). -/
def apply_cut (segments : List Segment) (sel_start sel_end : Int) : List Segment :=
  if sel_start ≥ sel_end then segments
  else List.insertionSort segLE (segments.flatMap (processSeg sel_start sel_end))

/-- Two segments occupy disjoint half-open intervals. -/
def segDisjoint (a b : Segment) : Prop :=
  a.end_ms ≤ b.start_ms ∨ b.end_ms ≤ a.start_ms

/-! ## Export compiler (`video_engine.py`, `FFmpegCommandBuilder.build_command`) -/

/-- One stage of the `-filter_complex` graph.  `vtrim` carries the data the
source interpolates into
`"[i:v]trim=ls:le,setpts=PTS-STARTPTS,scale=w:h,setsar=1[v_seg_s_i]"`,
`atrim` the data of `"[i:a]atrim=ls:le,asetpts=PTS-STARTPTS[a_seg_s_i]"`,
and the two concat stages carry their labelled input pads and the `n=`
count. -/
inductive FilterStage where
  | vtrim (segIdx clipIdx : Nat) (localStart localEnd : ℚ) (width height : Int)
  | atrim (segIdx clipIdx : Nat) (localStart localEnd : ℚ)
  | concatV (pads : List (Nat × Nat)) (n : Nat)
  | concatA (pads : List (Nat × Nat)) (n : Nat)
deriving DecidableEq, Repr

/-- One element of the generated argument vector.  Plain flags and codec
names stay strings; `-i path` pairs, the `-shortest` flag, the filter
graph, the `-map` selectors and the `-r` value are kept structured. -/
inductive Arg where
  | str (s : String)
  | input (path : String)
  | shortest
  | filterComplex (stages : List FilterStage)
  | mapOutV
  | mapOutA
  | mapExtAudio (inputIdx : Nat)
  | fpsVal (fps : ℚ)
deriving DecidableEq, Repr

/-- The per-clip input loop: each clip must exist on disk
(`os.path.exists`) and contributes one `-i path` declaration; the first
missing clip aborts with `FileNotFoundError`. -/
def inputArgs (fileExists : String → Bool) : List SourceClip → Except String (List Arg)
  | [] => .ok []
  | c :: rest =>
    if fileExists c.path then
      match inputArgs fileExists rest with
      | .ok l => .ok (Arg.input c.path :: l)
      | .error e => .error e
    else .error ("Input file not found: " ++ c.path)

/-- The truthiness test `settings.use_external_audio and
settings.external_audio_path` (a `None` or empty-string path is falsy in
Python). -/
def extAudioPath (settings : ExportSettings) : Option String :=
  if settings.use_external_audio then
    match settings.external_audio_path with
    | some p => if p = "" then none else some p
    | none => none
  else none

/-- Validation of the external-audio input: when the truthy path is
present it must exist on disk. -/
def checkExtAudio (fileExists : String → Bool) (settings : ExportSettings) :
    Except String (Option String) :=
  match extAudioPath settings with
  | none => .ok none
  | some p =>
    if fileExists p then .ok (some p)
    else .error ("External audio file not found: " ++ p)

/-- One segment × clip intersection that produced a trim unit: the clip
(input) index and the local bounds in seconds (`(bound - global_start_ms)
/ 1000`). -/
structure TrimUnit where
  segIdx : Nat
  clipIdx : Nat
  localStart : ℚ
  localEnd : ℚ
deriving DecidableEq, Repr

/-- The double loop `for seg_idx, seg in enumerate(segments): for i, clip
in enumerate(playlist)`: every non-empty intersection
`[max(starts), min(ends))` yields one trim unit, in segment-major
playlist-minor order. -/
def trimUnits (playlist : List SourceClip) (segments : List Segment) : List TrimUnit :=
  segments.enum.flatMap fun sp =>
    playlist.enum.filterMap fun ip =>
      let start := max sp.2.start_ms ip.2.global_start_ms
      let stop := min sp.2.end_ms ip.2.global_end_ms
      if start < stop then
        some ⟨sp.1, ip.1,
          ((start - ip.2.global_start_ms : Int) : ℚ) / 1000,
          ((stop - ip.2.global_start_ms : Int) : ℚ) / 1000⟩
      else none

/-- The trim stages appended to `filter_parts` by the double loop: every
unit emits one video-trim stage, followed by a matching audio-trim stage
only when the original audio is used (`not settings.use_external_audio`). -/
def filterParts (units : List TrimUnit) (settings : ExportSettings) : List FilterStage :=
  units.flatMap fun u =>
    FilterStage.vtrim u.segIdx u.clipIdx u.localStart u.localEnd
        settings.width settings.height ::
      (if settings.use_external_audio then []
       else [FilterStage.atrim u.segIdx u.clipIdx u.localStart u.localEnd])

/-- The codec/container selection block: defaults
`(libvpx-vp9, libopus, [])`, then the `.mkv` / `.mp4` / `.webm` branches,
with the hardware (`use_gpu`) sub-branch for `.mkv` and `.mp4`.  Returns
`(v_codec, a_codec, extra_flags)`. -/
def selectCodecs (ext : String) (use_gpu : Bool) (mbps : Int) :
    String × String × List String :=
  if ext = ".mkv" then
    if use_gpu then
      ("hevc_nvenc", "libopus",
        ["-b:v", toString mbps ++ "M", "-maxrate", toString (mbps + 5) ++ "M",
         "-bufsize", toString (mbps * 2) ++ "M", "-preset", "p4",
         "-profile:v", "main"])
    else
      ("libvpx-vp9", "libopus",
        ["-b:v", toString mbps ++ "M", "-maxrate", toString (mbps + 5) ++ "M",
         "-bufsize", toString (mbps * 2) ++ "M", "-crf", "30",
         "-deadline", "realtime", "-cpu-used", "4"])
  else if ext = ".mp4" then
    if use_gpu then
      ("h264_nvenc", "aac",
        ["-b:v", toString mbps ++ "M", "-maxrate", toString (mbps + 5) ++ "M",
         "-bufsize", toString (mbps * 2) ++ "M", "-preset", "p4",
         "-profile:v", "high", "-pix_fmt", "yuv420p"])
    else
      ("libx264", "aac",
        ["-b:v", toString mbps ++ "M", "-maxrate", toString (mbps + 5) ++ "M",
         "-bufsize", toString (mbps * 2) ++ "M", "-preset", "medium",
         "-pix_fmt", "yuv420p"])
  else if ext = ".webm" then
    ("libvpx-vp9", "libopus",
      ["-b:v", toString mbps ++ "M", "-maxrate", toString (mbps + 5) ++ "M",
       "-bufsize", toString (mbps * 2) ++ "M", "-crf", "30",
       "-deadline", "realtime", "-cpu-used", "4"])
  else ("libvpx-vp9", "libopus", [])

/-- Index of the last occurrence of a character. -/
def lastIndexOf (c : Char) : List Char → Option Nat
  | [] => none
  | x :: xs =>
    match lastIndexOf c xs with
    | some i => some (i + 1)
    | none => if x = c then some 0 else none

/-- Embeds `os.path.splitext(p)[1]` (posix separator): the extension starts at the
last dot, provided it lies after the last separator and the basename has a
non-dot character before it. -/
def extnameOf (p : String) : String :=
  let cs := p.toList
  let sepIdx : Int := match lastIndexOf '/' cs with | some i => (i : Int) | none => -1
  let dotIdx : Int := match lastIndexOf '.' cs with | some i => (i : Int) | none => -1
  if sepIdx < dotIdx then
    let stem := (cs.drop (sepIdx + 1).toNat).take (dotIdx - sepIdx - 1).toNat
    if stem.any (fun ch => ch ≠ '.') then String.mk (cs.drop dotIdx.toNat) else ""
  else ""

/-- Computes `ext = os.path.splitext(...)[1].lower()`, falling back to
`"." + settings.format` when empty. -/
def exportExt (settings : ExportSettings) : String :=
  let ext0 := (extnameOf settings.output_path).toLower
  if ext0 = "" then "." ++ settings.format else ext0

/-- The tail of the argument vector from `-c:v` on: video codec, extra
flags, audio codec, `-r fps`, output path. -/
def codecArgs (settings : ExportSettings) : List Arg :=
  match selectCodecs (exportExt settings) settings.use_gpu settings.bitrate_mbps with
  | (v_codec, a_codec, extra_flags) =>
    [Arg.str "-c:v", Arg.str v_codec] ++ extra_flags.map Arg.str ++
      [Arg.str "-c:a", Arg.str a_codec, Arg.str "-r", Arg.fpsVal settings.fps,
       Arg.str settings.output_path]

/-- Embeds `FFmpegCommandBuilder.build_command`.  `ffmpegExec` is the builder's
located executable (`self.ffmpeg_exec`), `fileExists` the
`os.path.exists` oracle.  The validation order, the stage construction and
the argument order follow the source line by line. -/
def build_command (ffmpegExec : Option String) (fileExists : String → Bool)
    (playlist : List SourceClip) (segments : List Segment)
    (settings : ExportSettings) : Except String (List Arg) :=
  match ffmpegExec with
  | none => .error "FFmpeg executable not found."
  | some exe =>
    if playlist.isEmpty then .error "No video clips in playlist."
    else if segments.isEmpty then .error "No segments provided for export."
    else
      match inputArgs fileExists playlist with
      | .error e => .error e
      | .ok inputs =>
        match checkExtAudio fileExists settings with
        | .error e => .error e
        | .ok extOpt =>
          let units := trimUnits playlist segments
          if units.isEmpty then
            .error "No video content selected to export (segments might be out of range)."
          else
            let nParts := units.length
            let vPads := units.map fun u => (u.segIdx, u.clipIdx)
            let vStages := filterParts units settings
            match extOpt with
            | some p =>
              let parts := vStages ++ [FilterStage.concatV vPads nParts]
              .ok ([Arg.str exe, Arg.str "-y"] ++ inputs ++
                [Arg.input p, Arg.shortest,
                 Arg.str "-filter_complex", Arg.filterComplex parts,
                 Arg.str "-map", Arg.mapOutV,
                 Arg.str "-map", Arg.mapExtAudio playlist.length] ++
                codecArgs settings)
            | none =>
              let aPads := if settings.use_external_audio then [] else vPads
              let parts := vStages ++
                [FilterStage.concatV vPads nParts, FilterStage.concatA aPads nParts]
              .ok ([Arg.str exe, Arg.str "-y"] ++ inputs ++
                [Arg.str "-filter_complex", Arg.filterComplex parts,
                 Arg.str "-map", Arg.mapOutV,
                 Arg.str "-map", Arg.mapOutA] ++
                codecArgs settings)

/-- All filter stages mentioned in an argument vector. -/
def cmdFilterStages (cmd : List Arg) : List FilterStage :=
  cmd.flatMap fun a =>
    match a with
    | Arg.filterComplex parts => parts
    | _ => []

/-- Recognise an audio-trim stage. -/
def isAtrim : FilterStage → Bool
  | .atrim .. => true
  | _ => false

/-- Recognise a video-trim stage. -/
def isVtrim : FilterStage → Bool
  | .vtrim .. => true
  | _ => false

/-- Recognise an `-i` input declaration. -/
def isInput : Arg → Bool
  | .input _ => true
  | _ => false

/-- The audio-trim stages of a command. -/
def atrimStages (cmd : List Arg) : List FilterStage :=
  (cmdFilterStages cmd).filter isAtrim

/-- The video-trim stages of a command. -/
def vtrimStages (cmd : List Arg) : List FilterStage :=
  (cmdFilterStages cmd).filter isVtrim

/-- The `(clip index, local start s, local end s)` of every video-trim stage. -/
def videoTrimBounds (cmd : List Arg) : List (Nat × ℚ × ℚ) :=
  (cmdFilterStages cmd).filterMap fun st =>
    match st with
    | .vtrim _ i ls le _ _ => some (i, ls, le)
    | _ => none

/-- Applies `videoTrimBounds` to a compilation result (`[]` on error). -/
def exceptTrims (r : Except String (List Arg)) : List (Nat × ℚ × ℚ) :=
  match r with
  | .ok cmd => videoTrimBounds cmd
  | .error _ => []

/-! ## Timeline layout invariant -/

/-- Clips laid out back to back starting at `s`, each with a non-degenerate
half-open span (`add_clip` with positive durations produces exactly this
shape). -/
def Chained : Int → List SourceClip → Prop
  | _, [] => True
  | s, c :: rest =>
    c.global_start_ms = s ∧ s < c.global_end_ms ∧ Chained c.global_end_ms rest

/-- End coordinate of a back-to-back layout starting at `s`. -/
def chainEnd : Int → List SourceClip → Int
  | s, [] => s
  | _, c :: rest => chainEnd c.global_end_ms rest

theorem le_chainEnd : ∀ (s : Int) (l : List SourceClip), Chained s l → s ≤ chainEnd s l
  | _, [], _ => le_refl _
  | _, c :: rest, ⟨_, hlt, hch⟩ =>
    le_trans (le_of_lt hlt) (le_chainEnd c.global_end_ms rest hch)

theorem chained_mem_bounds : ∀ (s : Int) (l : List SourceClip), Chained s l →
    ∀ c ∈ l, s ≤ c.global_start_ms ∧ c.global_start_ms < c.global_end_ms ∧
      c.global_end_ms ≤ chainEnd s l := by
  intro s l
  induction l generalizing s with
  | nil => intro _ c hc; cases hc
  | cons d rest ih =>
    rintro ⟨hgs, hlt, hch⟩ c hc
    rcases List.mem_cons.mp hc with rfl | hc
    · exact ⟨le_of_eq hgs.symm, by omega, le_chainEnd _ _ hch⟩
    · obtain ⟨h1, h2, h3⟩ := ih _ hch c hc
      exact ⟨by omega, h2, h3⟩

theorem lastEndOr0_chained : ∀ (s : Int) (l : List SourceClip), Chained s l →
    l ≠ [] → lastEndOr0 l = chainEnd s l := by
  intro s l
  induction l generalizing s with
  | nil => intro _ h; cases h rfl
  | cons c rest ih =>
    rintro ⟨_, _, hch⟩ _
    cases rest with
    | nil => rfl
    | cons d rest' =>
      show lastEndOr0 (c :: d :: rest') = chainEnd c.global_end_ms (d :: rest')
      have : lastEndOr0 (c :: d :: rest') = lastEndOr0 (d :: rest') := by
        simp [lastEndOr0, List.getLast?_cons_cons]
      rw [this]
      exact ih _ hch (by simp)

theorem lastEndOr0_eq_chainEnd0 (l : List SourceClip) (h : Chained 0 l) :
    lastEndOr0 l = chainEnd 0 l := by
  cases l with
  | nil => rfl
  | cons c rest => exact lastEndOr0_chained 0 _ h (by simp)

theorem chained_append : ∀ (s : Int) (l : List SourceClip) (c : SourceClip),
    Chained s l → c.global_start_ms = chainEnd s l →
    c.global_start_ms < c.global_end_ms → Chained s (l ++ [c]) := by
  intro s l
  induction l generalizing s with
  | nil =>
    intro c _ hgs hlt
    have hgs' : c.global_start_ms = s := hgs
    exact ⟨hgs, by omega, trivial⟩
  | cons d rest ih =>
    rintro c ⟨hgs, hlt, hch⟩ hcs hclt
    exact ⟨hgs, hlt, ih _ c hch hcs hclt⟩

theorem chained_foldl (specs : List ClipSpec) :
    ∀ tm : TimelineManager, Chained 0 tm.playlist →
    (∀ sp ∈ specs, 0 < sp.duration_ms) →
    Chained 0 ((specs.foldl
      (fun tm sp => tm.add_clip sp.path sp.duration_ms sp.width sp.height)
      tm).playlist) := by
  induction specs with
  | nil => intro tm h _; exact h
  | cons sp specs ih =>
    intro tm h hdur
    refine ih _ ?_ (fun s hs => hdur s (List.mem_cons_of_mem _ hs))
    have hd := hdur sp (List.mem_cons_self _ _)
    refine chained_append 0 tm.playlist _ h ?_ ?_
    · exact lastEndOr0_eq_chainEnd0 _ h
    · show lastEndOr0 tm.playlist < lastEndOr0 tm.playlist + sp.duration_ms
      omega

theorem chained_buildTimeline (specs : List ClipSpec)
    (h : ∀ sp ∈ specs, 0 < sp.duration_ms) :
    Chained 0 (buildTimeline specs).playlist :=
  chained_foldl specs ⟨[]⟩ trivial h

theorem locateLoop_chained : ∀ (s : Int) (l : List SourceClip), Chained s l →
    ∀ g : Int, s ≤ g → g < chainEnd s l →
    ∃ c, locateLoop l g = (some c, g - c.global_start_ms) ∧ c ∈ l ∧
      c.global_start_ms ≤ g ∧ g < c.global_end_ms := by
  intro s l
  induction l generalizing s with
  | nil => intro _ g hsg hg; exact absurd hg (not_lt.mpr hsg)
  | cons c rest ih =>
    rintro ⟨hgs, hlt, hch⟩ g hsg hg
    by_cases hcase : c.global_start_ms ≤ g ∧ g < c.global_end_ms
    · exact ⟨c, by simp [locateLoop, hcase], List.mem_cons_self _ _, hcase.1, hcase.2⟩
    · have hge : c.global_end_ms ≤ g := by omega
      obtain ⟨d, hd, hmem, h1, h2⟩ := ih _ hch g hge hg
      exact ⟨d, by simp [locateLoop, hcase, hd], List.mem_cons_of_mem _ hmem, h1, h2⟩

theorem chained_unique : ∀ (s : Int) (l : List SourceClip), Chained s l →
    ∀ (g : Int) (c₁ c₂ : SourceClip), c₁ ∈ l → c₂ ∈ l →
    c₁.global_start_ms ≤ g → g < c₁.global_end_ms →
    c₂.global_start_ms ≤ g → g < c₂.global_end_ms → c₁ = c₂ := by
  intro s l
  induction l generalizing s with
  | nil => intro _ g c₁ c₂ h; cases h
  | cons c rest ih =>
    rintro ⟨hgs, hlt, hch⟩ g c₁ c₂ h₁ h₂ a₁ b₁ a₂ b₂
    rcases List.mem_cons.mp h₁ with e₁ | m₁
    · rcases List.mem_cons.mp h₂ with e₂ | m₂
      · exact e₁.trans e₂.symm
      · exfalso
        subst e₁
        have := (chained_mem_bounds _ _ hch c₂ m₂).1
        omega
    · rcases List.mem_cons.mp h₂ with e₂ | m₂
      · exfalso
        subst e₂
        have := (chained_mem_bounds _ _ hch c₁ m₁).1
        omega
      · exact ih _ hch g c₁ c₂ m₁ m₂ a₁ b₁ a₂ b₂

/-! ## Claims C1 and C2 -/

/-- A one-clip registry used to refute the negative-query part of C1. -/
def c1Registry : TimelineManager := buildTimeline [⟨"clip_a", 1000, 640, 480⟩]

/-- C1 counterexample: on a registry holding one 1000 ms clip, the query at
global time `-1` does NOT return "not found" — the source clamps negative
times to `0` and the scan then returns the first clip. -/
theorem c1_negative_query_counterexample :
    (c1Registry.get_clip_at_global_time (-1)).1 ≠ none := by decide

/-- C1 (amended): `get_clip_at_global_time` returns `(none, 0)` whenever the
registry is empty or the queried time is at or past `get_total_duration`;
a negative query is clamped to `0` and answered exactly like the query at
`0` (so it can return the first clip rather than "not found"). -/
theorem c1_locate_out_of_bounds (tm : TimelineManager) (t : Int) :
    ((tm.playlist = [] ∨ tm.get_total_duration ≤ t) →
      tm.get_clip_at_global_time t = (none, 0)) ∧
    (t < 0 →
      tm.get_clip_at_global_time t = tm.get_clip_at_global_time 0) := by
  constructor
  · rintro (he | ht)
    · simp [TimelineManager.get_clip_at_global_time, he]
    · by_cases hemp : tm.playlist.isEmpty
      · simp [TimelineManager.get_clip_at_global_time, hemp]
      · have hle : tm.get_total_duration ≤ (if t < 0 then 0 else t) := by
          split <;> omega
        simp [TimelineManager.get_clip_at_global_time, hemp, hle]
  · intro ht
    have h1 : (if t < 0 then (0 : Int) else t) = 0 := by simp [ht]
    simp only [TimelineManager.get_clip_at_global_time, h1]
    norm_num

/-- C1 witness: a registry with one 50 ms clip queried at 99 ms returns
"not found", and a query at `-3` agrees with the query at `0`. -/
theorem c1_locate_out_of_bounds_witness :
    ((buildTimeline [⟨"w", 50, 8, 8⟩]).get_clip_at_global_time 99 = (none, 0)) ∧
    ((buildTimeline [⟨"w", 50, 8, 8⟩]).get_clip_at_global_time (-3) =
      (buildTimeline [⟨"w", 50, 8, 8⟩]).get_clip_at_global_time 0) :=
  ⟨(c1_locate_out_of_bounds (buildTimeline [⟨"w", 50, 8, 8⟩]) 99).1
      (Or.inr (by decide)),
    (c1_locate_out_of_bounds (buildTimeline [⟨"w", 50, 8, 8⟩]) (-3)).2 (by decide)⟩

/-- C2: on a registry built by `add_clip` calls with positive durations, any
global time `t` with `0 ≤ t < get_total_duration` locates exactly one clip
— the unique one whose half-open span `[global_start_ms, global_end_ms)`
contains `t` — together with local offset `t - global_start_ms`; since the
span containing `t` is half-open, at an internal boundary this is the
right-hand clip, never the left one. -/
theorem c2_locate_total_and_unique (specs : List ClipSpec)
    (hdur : ∀ sp ∈ specs, 0 < sp.duration_ms) (t : Int) (h0 : 0 ≤ t)
    (ht : t < (buildTimeline specs).get_total_duration) :
    ∃ c, (buildTimeline specs).get_clip_at_global_time t =
        (some c, t - c.global_start_ms) ∧
      c ∈ (buildTimeline specs).playlist ∧
      c.global_start_ms ≤ t ∧ t < c.global_end_ms ∧
      ∀ c' ∈ (buildTimeline specs).playlist,
        c'.global_start_ms ≤ t → t < c'.global_end_ms → c' = c := by
  have hch := chained_buildTimeline specs hdur
  have htot : (buildTimeline specs).get_total_duration =
      chainEnd 0 (buildTimeline specs).playlist := lastEndOr0_eq_chainEnd0 _ hch
  rw [htot] at ht
  obtain ⟨c, hloc, hmem, ha, hb⟩ := locateLoop_chained 0 _ hch t h0 ht
  have hne : ¬ (buildTimeline specs).playlist.isEmpty := by
    cases hpl : (buildTimeline specs).playlist with
    | nil =>
      rw [hpl] at ht
      exact absurd (show t < (0 : Int) from ht) (by omega)
    | cons d rest => simp
  refine ⟨c, ?_, hmem, ha, hb,
    fun c' hm' ha' hb' => chained_unique 0 _ hch t c' c hm' hmem ha' hb' ha hb⟩
  have hclamp : (if t < 0 then (0 : Int) else t) = t := by omega
  have hnotle : ¬ (buildTimeline specs).get_total_duration ≤ t := by
    rw [htot]; omega
  simp [TimelineManager.get_clip_at_global_time, hne, hclamp, hnotle, hloc]

/-- C2 witness: two clips of 1000 ms and 500 ms; the internal boundary
query at 1000 ms returns the second clip with local offset 0. -/
theorem c2_locate_total_and_unique_witness :
    ∃ c, (buildTimeline [⟨"a", 1000, 640, 480⟩, ⟨"b", 500, 640, 480⟩]).get_clip_at_global_time 1000 =
        (some c, 1000 - c.global_start_ms) ∧
      c ∈ (buildTimeline [⟨"a", 1000, 640, 480⟩, ⟨"b", 500, 640, 480⟩]).playlist ∧
      c.global_start_ms ≤ 1000 ∧ 1000 < c.global_end_ms ∧
      ∀ c' ∈ (buildTimeline [⟨"a", 1000, 640, 480⟩, ⟨"b", 500, 640, 480⟩]).playlist,
        c'.global_start_ms ≤ 1000 → 1000 < c'.global_end_ms → c' = c :=
  c2_locate_total_and_unique [⟨"a", 1000, 640, 480⟩, ⟨"b", 500, 640, 480⟩]
    (by decide) 1000 (by decide) (by decide)

/-! ## Segment editor lemmas -/

instance : DecidableRel segDisjoint := fun a b =>
  inferInstanceAs (Decidable (a.end_ms ≤ b.start_ms ∨ b.end_ms ≤ a.start_ms))

theorem segDisjoint_symm {a b : Segment} (h : segDisjoint a b) : segDisjoint b a :=
  Or.symm h

/-- Every piece produced from a positive-width segment is a positive-width
subinterval of that segment. -/
theorem processSeg_subinterval (selS selE : Int) (seg o : Segment)
    (hsel : selS < selE) (hpos : seg.start_ms < seg.end_ms)
    (ho : o ∈ processSeg selS selE seg) :
    o.start_ms < o.end_ms ∧ seg.start_ms ≤ o.start_ms ∧ o.end_ms ≤ seg.end_ms := by
  unfold processSeg at ho
  split_ifs at ho with h1 h2 h3 h4 h5
  · exact absurd ho (List.not_mem_nil _)
  · have he := List.mem_singleton.mp ho
    have hs : o.start_ms = seg.start_ms := by rw [he]
    have hE : o.end_ms = seg.end_ms := by rw [he]
    omega
  · have he := List.mem_singleton.mp ho
    have hs : o.start_ms = selE := by rw [he]
    have hE : o.end_ms = seg.end_ms := by rw [he]
    omega
  · have he := List.mem_singleton.mp ho
    have hs : o.start_ms = seg.start_ms := by rw [he]
    have hE : o.end_ms = selS := by rw [he]
    omega
  · rcases List.mem_pair.mp ho with he | he
    · have hs : o.start_ms = seg.start_ms := by rw [he]
      have hE : o.end_ms = selS := by rw [he]
      omega
    · have hs : o.start_ms = selE := by rw [he]
      have hE : o.end_ms = seg.end_ms := by rw [he]
      omega
  · exact absurd ho (List.not_mem_nil _)

/-- The pieces produced from a single segment are pairwise disjoint. -/
theorem processSeg_pairwise (selS selE : Int) (seg : Segment)
    (hsel : selS < selE) :
    (processSeg selS selE seg).Pairwise segDisjoint := by
  unfold processSeg
  split_ifs with h1 h2 h3 h4 h5 <;>
    simp [List.pairwise_cons, segDisjoint] <;> omega

/-- Cutting every member of a pairwise-disjoint positive-width family
yields a pairwise-disjoint family. -/
theorem flatMap_processSeg_pairwise (segs : List Segment) (selS selE : Int)
    (hsel : selS < selE) (hpos : ∀ s ∈ segs, s.start_ms < s.end_ms)
    (hdisj : segs.Pairwise segDisjoint) :
    (segs.flatMap (processSeg selS selE)).Pairwise segDisjoint := by
  induction segs with
  | nil => simp
  | cons a l ih =>
    rw [List.flatMap_cons]
    rcases List.pairwise_cons.mp hdisj with ⟨hd, htl⟩
    refine List.pairwise_append.mpr
      ⟨processSeg_pairwise _ _ _ hsel,
       ih (fun s hs => hpos s (List.mem_cons_of_mem _ hs)) htl, ?_⟩
    intro x hx y hy
    obtain ⟨b, hb, hyb⟩ := List.mem_flatMap.mp hy
    have hxa := processSeg_subinterval selS selE a x hsel
      (hpos a (List.mem_cons_self _ _)) hx
    have hyb' := processSeg_subinterval selS selE b y hsel
      (hpos b (List.mem_cons_of_mem _ hb)) hyb
    have hab := hd b hb
    unfold segDisjoint at hab ⊢
    omega

/-- C3: starting from pairwise-disjoint positive-width segments, a cut with
`sel_start < sel_end` yields a set sorted ascending by `start_ms`, pairwise
non-overlapping, with every member of positive width. -/
theorem c3_apply_cut_invariants (segs : List Segment) (sel_start sel_end : Int)
    (hdisj : segs.Pairwise segDisjoint)
    (hpos : ∀ s ∈ segs, s.start_ms < s.end_ms)
    (hsel : sel_start < sel_end) :
    (apply_cut segs sel_start sel_end).Pairwise segLE ∧
    (apply_cut segs sel_start sel_end).Pairwise segDisjoint ∧
    ∀ s ∈ apply_cut segs sel_start sel_end, s.start_ms < s.end_ms := by
  have hno : ¬ sel_start ≥ sel_end := by omega
  simp only [apply_cut, if_neg hno]
  refine ⟨List.sorted_insertionSort segLE _, ?_, ?_⟩
  · exact (List.perm_insertionSort segLE _).symm.pairwise
      (flatMap_processSeg_pairwise segs sel_start sel_end hsel hpos hdisj)
      segDisjoint_symm
  · intro s hs
    rw [List.mem_insertionSort] at hs
    obtain ⟨t, ht, hst⟩ := List.mem_flatMap.mp hs
    exact (processSeg_subinterval _ _ t s hsel (hpos t ht) hst).1

/-- C3 witness: two disjoint segments cut by `[5, 25)`. -/
theorem c3_apply_cut_invariants_witness :
    (apply_cut [⟨0, 10⟩, ⟨20, 30⟩] 5 25).Pairwise segLE ∧
    (apply_cut [⟨0, 10⟩, ⟨20, 30⟩] 5 25).Pairwise segDisjoint ∧
    ∀ s ∈ apply_cut [⟨0, 10⟩, ⟨20, 30⟩] 5 25, s.start_ms < s.end_ms :=
  c3_apply_cut_invariants [⟨0, 10⟩, ⟨20, 30⟩] 5 25 (by decide) (by decide)
    (by decide)

/-- A piece that survived one cut is untouched by the identical cut. -/
theorem processSeg_fixed (selS selE : Int) (hsel : selS < selE)
    (seg o : Segment) (ho : o ∈ processSeg selS selE seg) :
    processSeg selS selE o = [o] := by
  unfold processSeg at ho
  split_ifs at ho with h1 h2 h3 h4 h5
  · exact absurd ho (List.not_mem_nil _)
  · have he := List.mem_singleton.mp ho
    subst he
    unfold processSeg
    rw [if_neg h1, if_pos h2]
  · have he := List.mem_singleton.mp ho
    have hs : o.start_ms = selE := by rw [he]
    have hE : o.end_ms = seg.end_ms := by rw [he]
    have hC1 : ¬ (selS ≤ o.start_ms ∧ selE ≥ o.end_ms) := by omega
    have hC2 : selE ≤ o.start_ms ∨ selS ≥ o.end_ms := by omega
    unfold processSeg
    rw [if_neg hC1, if_pos hC2, he]
  · have he := List.mem_singleton.mp ho
    have hs : o.start_ms = seg.start_ms := by rw [he]
    have hE : o.end_ms = selS := by rw [he]
    have hC1 : ¬ (selS ≤ o.start_ms ∧ selE ≥ o.end_ms) := by omega
    have hC2 : selE ≤ o.start_ms ∨ selS ≥ o.end_ms := by omega
    unfold processSeg
    rw [if_neg hC1, if_pos hC2, he]
  · rcases List.mem_pair.mp ho with he | he
    · have hs : o.start_ms = seg.start_ms := by rw [he]
      have hE : o.end_ms = selS := by rw [he]
      have hC1 : ¬ (selS ≤ o.start_ms ∧ selE ≥ o.end_ms) := by omega
      have hC2 : selE ≤ o.start_ms ∨ selS ≥ o.end_ms := by omega
      unfold processSeg
      rw [if_neg hC1, if_pos hC2, he]
    · have hs : o.start_ms = selE := by rw [he]
      have hE : o.end_ms = seg.end_ms := by rw [he]
      have hC1 : ¬ (selS ≤ o.start_ms ∧ selE ≥ o.end_ms) := by omega
      have hC2 : selE ≤ o.start_ms ∨ selS ≥ o.end_ms := by omega
      unfold processSeg
      rw [if_neg hC1, if_pos hC2, he]
  · exact absurd ho (List.not_mem_nil _)

/-- Mapping `flatMap` over a function that fixes every member is the identity. -/
theorem flatMap_eq_self {α : Type} (f : α → List α) :
    ∀ l : List α, (∀ x ∈ l, f x = [x]) → l.flatMap f = l := by
  intro l h
  induction l with
  | nil => simp
  | cons a t ih =>
    rw [List.flatMap_cons, h a (List.mem_cons_self _ _),
      ih (fun x hx => h x (List.mem_cons_of_mem _ hx))]
    rfl

/-- C4: applying the same cut range (with `sel_start < sel_end`) twice in
succession yields exactly the segment set of applying it once. -/
theorem c4_apply_cut_idempotent (segs : List Segment) (sel_start sel_end : Int)
    (hsel : sel_start < sel_end) :
    apply_cut (apply_cut segs sel_start sel_end) sel_start sel_end =
      apply_cut segs sel_start sel_end := by
  have hno : ¬ sel_start ≥ sel_end := by omega
  have happ : apply_cut segs sel_start sel_end =
      List.insertionSort segLE (segs.flatMap (processSeg sel_start sel_end)) := by
    simp only [apply_cut, if_neg hno]
  rw [happ]
  have hfix : ∀ x ∈ List.insertionSort segLE
      (segs.flatMap (processSeg sel_start sel_end)),
      processSeg sel_start sel_end x = [x] := by
    intro x hx
    rw [List.mem_insertionSort] at hx
    obtain ⟨t, ht, hxt⟩ := List.mem_flatMap.mp hx
    exact processSeg_fixed sel_start sel_end hsel t x hxt
  simp only [apply_cut, if_neg hno]
  rw [flatMap_eq_self _ _ hfix]
  exact List.Sorted.insertionSort_eq (List.sorted_insertionSort segLE _)

/-- C4 witness: one segment, interior cut applied twice. -/
theorem c4_apply_cut_idempotent_witness :
    apply_cut (apply_cut [⟨0, 10⟩] 3 5) 3 5 = apply_cut [⟨0, 10⟩] 3 5 :=
  c4_apply_cut_idempotent [⟨0, 10⟩] 3 5 (by decide)

/-! ## Claims C5, C6, C8, C9 -/

/-- Scenario B registry input: two 5000 ms clips. -/
def scenarioSpecs : List ClipSpec :=
  [⟨"a.mp4", 5000, 1280, 720⟩, ⟨"b.mp4", 5000, 1280, 720⟩]

/-- Scenario B export settings: mp4 container, original audio, software
encoder. -/
def scenarioSettings : ExportSettings :=
  ⟨"out.mp4", "mp4", 10, 1280, 720, false, none, 30, false⟩

/-- C5 (scenario B): from segments `{[0,5000), [5000,10000)}` the cut
`(2000, 7000)` leaves `[0,2000)` and `[7000,10000)`; compiling that state
over the two-clip registry succeeds and produces exactly two video trim
units in order: clip 0 with local bounds `[0, 2)` seconds and clip 1 with
local bounds `[2, 5)` seconds. -/
theorem c5_scenario_b :
    apply_cut [⟨0, 5000⟩, ⟨5000, 10000⟩] 2000 7000 = [⟨0, 2000⟩, ⟨7000, 10000⟩] ∧
    (build_command (some "ffmpeg") (fun _ => true) (buildTimeline scenarioSpecs).playlist
      (apply_cut [⟨0, 5000⟩, ⟨5000, 10000⟩] 2000 7000) scenarioSettings).isOk = true ∧
    exceptTrims (build_command (some "ffmpeg") (fun _ => true)
      (buildTimeline scenarioSpecs).playlist
      (apply_cut [⟨0, 5000⟩, ⟨5000, 10000⟩] 2000 7000) scenarioSettings) =
      [(0, 0, 2), (1, 2, 5)] := by
  have h1 : apply_cut [⟨0, 5000⟩, ⟨5000, 10000⟩] 2000 7000 =
      ([⟨0, 2000⟩, ⟨7000, 10000⟩] : List Segment) := by decide
  have h2 : (buildTimeline scenarioSpecs).playlist =
      [⟨"a.mp4", 5000, 1280, 720, 0, 5000⟩,
       ⟨"b.mp4", 5000, 1280, 720, 5000, 10000⟩] := by decide
  refine ⟨h1, ?_, ?_⟩ <;> rw [h1, h2] <;>
    simp [build_command, inputArgs, checkExtAudio, extAudioPath, scenarioSettings,
      trimUnits, filterParts, exceptTrims, videoTrimBounds, cmdFilterStages,
      codecArgs, exportExt, selectCodecs, extnameOf, lastIndexOf, List.enum,
      List.enumFrom, Except.isOk, Except.toBool] <;> norm_num

/-- C6: on the supported containers the codec/container selection is a
total function of `(extension, hardware preference)`: it yields exactly
one `(video codec, audio codec, flags)` triple, the flag set of a handled
combination is never empty (nothing falls through to the bare default),
and `.webm` selects identically whether or not the hardware preference is
set. -/
theorem c6_codec_selection_total (ext : String) (use_gpu : Bool) (mbps : Int)
    (hext : ext = ".mp4" ∨ ext = ".mkv" ∨ ext = ".webm") :
    (∃! sel : String × String × List String,
      selectCodecs ext use_gpu mbps = sel) ∧
    (selectCodecs ext use_gpu mbps).2.2 ≠ [] ∧
    selectCodecs ".webm" use_gpu mbps = selectCodecs ".webm" false mbps := by
  refine ⟨⟨selectCodecs ext use_gpu mbps, rfl, fun y hy => hy.symm⟩, ?_, ?_⟩
  · rcases hext with rfl | rfl | rfl <;> cases use_gpu <;> simp [selectCodecs]
  · cases use_gpu <;> simp [selectCodecs]

/-- C6 witness: `.webm` with the hardware preference set. -/
theorem c6_codec_selection_total_witness :
    (∃! sel : String × String × List String,
      selectCodecs ".webm" true 10 = sel) ∧
    (selectCodecs ".webm" true 10).2.2 ≠ [] ∧
    selectCodecs ".webm" true 10 = selectCodecs ".webm" false 10 :=
  c6_codec_selection_total ".webm" true 10 (Or.inr (Or.inr rfl))

/-- C8: with an encoder configured, a non-empty playlist whose files all
resolve, and an empty segment set, compilation fails with exactly the
"No segments provided for export." validation error, before any input or
stage of the plan is examined. -/
theorem c8_empty_segments (exe : String) (fileExists : String → Bool)
    (playlist : List SourceClip) (settings : ExportSettings)
    (hne : playlist ≠ [])
    (hfiles : ∀ c ∈ playlist, fileExists c.path = true) :
    build_command (some exe) fileExists playlist [] settings =
      .error "No segments provided for export." := by
  have h1 : playlist.isEmpty = false := by
    cases playlist with
    | nil => cases hne rfl
    | cons _ _ => rfl
  simp [build_command, h1]

/-- C8 witness: one resolving clip, empty segment set. -/
theorem c8_empty_segments_witness :
    build_command (some "ffmpeg") (fun _ => true)
      [⟨"a.mp4", 1000, 640, 480, 0, 1000⟩] [] scenarioSettings =
      .error "No segments provided for export." :=
  c8_empty_segments "ffmpeg" (fun _ => true)
    [⟨"a.mp4", 1000, 640, 480, 0, 1000⟩] scenarioSettings (by simp)
    (fun c _ => rfl)

/-- C9: compilation is deterministic — two runs of `build_command` on equal
encoder paths, equal filesystem answers and equal
`(playlist, segments, settings)` inputs produce identical argument
vectors. -/
theorem c9_compile_deterministic (f f' : Option String)
    (fs fs' : String → Bool) (pl pl' : List SourceClip)
    (segs segs' : List Segment) (st st' : ExportSettings)
    (h1 : f = f') (h2 : ∀ p, fs p = fs' p) (h3 : pl = pl')
    (h4 : segs = segs') (h5 : st = st') :
    build_command f fs pl segs st = build_command f' fs' pl' segs' st' := by
  subst h1 h3 h4 h5
  rw [funext h2]

/-- C9 witness: scenario B compiled twice. -/
theorem c9_compile_deterministic_witness :
    build_command (some "ffmpeg") (fun _ => true)
      (buildTimeline scenarioSpecs).playlist [⟨0, 2000⟩] scenarioSettings =
    build_command (some "ffmpeg") (fun _ => true)
      (buildTimeline scenarioSpecs).playlist [⟨0, 2000⟩] scenarioSettings :=
  c9_compile_deterministic (some "ffmpeg") (some "ffmpeg") (fun _ => true)
    (fun _ => true) (buildTimeline scenarioSpecs).playlist
    (buildTimeline scenarioSpecs).playlist [⟨0, 2000⟩] [⟨0, 2000⟩]
    scenarioSettings scenarioSettings rfl (fun _ => rfl) rfl rfl rfl

/-! ## Structural lemmas about the generated argument vector -/

/-- A successful input pass declares exactly the playlist paths, in order. -/
theorem inputArgs_ok (fe : String → Bool) :
    ∀ (pl : List SourceClip) (l : List Arg), inputArgs fe pl = .ok l →
      l = pl.map fun c => Arg.input c.path := by
  intro pl
  induction pl with
  | nil =>
    intro l h
    simp only [inputArgs, Except.ok.injEq] at h
    simp [← h]
  | cons c rest ih =>
    intro l h
    by_cases hfe : fe c.path
    · simp only [inputArgs, if_pos hfe] at h
      cases hre : inputArgs fe rest with
      | error e => rw [hre] at h; simp at h
      | ok l' =>
        rw [hre] at h
        simp only [Except.ok.injEq] at h
        rw [← h, ih l' hre]
        simp
    · simp only [inputArgs, if_neg hfe] at h
      simp at h

theorem cmdFilterStages_append (l1 l2 : List Arg) :
    cmdFilterStages (l1 ++ l2) = cmdFilterStages l1 ++ cmdFilterStages l2 := by
  simp [cmdFilterStages]

theorem cmdFilterStages_inputs (pl : List SourceClip) :
    cmdFilterStages (pl.map fun c => Arg.input c.path) = [] := by
  induction pl with
  | nil => simp [cmdFilterStages]
  | cons c t ih => simpa [cmdFilterStages] using ih

theorem cmdFilterStages_map_str (l : List String) :
    cmdFilterStages (l.map Arg.str) = [] := by
  induction l with
  | nil => simp [cmdFilterStages]
  | cons s t ih => simpa [cmdFilterStages] using ih

theorem cmdFilterStages_codecArgs (st : ExportSettings) :
    cmdFilterStages (codecArgs st) = [] := by
  rcases hsel : selectCodecs (exportExt st) st.use_gpu st.bitrate_mbps
    with ⟨v, a, fl⟩
  simp only [codecArgs, hsel]
  rw [show [Arg.str "-c:v", Arg.str v] ++ fl.map Arg.str ++
      [Arg.str "-c:a", Arg.str a, Arg.str "-r", Arg.fpsVal st.fps,
       Arg.str st.output_path] =
      ([Arg.str "-c:v", Arg.str v] ++ fl.map Arg.str ++
      [Arg.str "-c:a", Arg.str a, Arg.str "-r", Arg.fpsVal st.fps,
       Arg.str st.output_path]) from rfl]
  rw [cmdFilterStages_append, cmdFilterStages_append, cmdFilterStages_map_str]
  simp [cmdFilterStages]

/-- The codec tail never carries an external-audio map. -/
theorem mapExtAudio_not_mem_codecArgs (st : ExportSettings) (i : Nat) :
    Arg.mapExtAudio i ∉ codecArgs st := by
  rcases hsel : selectCodecs (exportExt st) st.use_gpu st.bitrate_mbps
    with ⟨v, a, fl⟩
  simp [codecArgs, hsel]

/-- The codec tail never carries the `-shortest` flag. -/
theorem shortest_not_mem_codecArgs (st : ExportSettings) :
    Arg.shortest ∉ codecArgs st := by
  rcases hsel : selectCodecs (exportExt st) st.use_gpu st.bitrate_mbps
    with ⟨v, a, fl⟩
  simp [codecArgs, hsel]

/-- The codec tail declares no `-i` input. -/
theorem codecArgs_filter_isInput (st : ExportSettings) :
    (codecArgs st).filter isInput = [] := by
  rcases hsel : selectCodecs (exportExt st) st.use_gpu st.bitrate_mbps
    with ⟨v, a, fl⟩
  simp [codecArgs, hsel, isInput, List.filter_map, Function.comp]

/-- With the external-audio override active, no audio-trim stage is built. -/
theorem filterParts_filter_atrim (units : List TrimUnit) (st : ExportSettings)
    (h : st.use_external_audio = true) :
    (filterParts units st).filter isAtrim = [] := by
  induction units with
  | nil => simp [filterParts]
  | cons u t ih => simpa [filterParts, h, isAtrim] using ih

/-- Every trim unit yields exactly one video-trim stage, in order. -/
theorem filterParts_filter_vtrim (units : List TrimUnit) (st : ExportSettings) :
    (filterParts units st).filter isVtrim =
      units.map fun u => FilterStage.vtrim u.segIdx u.clipIdx u.localStart
        u.localEnd st.width st.height := by
  induction units with
  | nil => simp [filterParts]
  | cons u t ih =>
    by_cases h : st.use_external_audio <;>
      simpa [filterParts, h, isVtrim, isAtrim] using ih

theorem cmdFilterStages_nil : cmdFilterStages [] = [] := rfl

theorem cmdFilterStages_cons (a : Arg) (l : List Arg) :
    cmdFilterStages (a :: l) =
      (match a with | Arg.filterComplex parts => parts | _ => []) ++
        cmdFilterStages l := by
  simp [cmdFilterStages]

theorem inputs_filter_isInput (pl : List SourceClip) :
    ((pl.map fun c => Arg.input c.path).filter isInput) =
      pl.map fun c => Arg.input c.path := by
  induction pl with
  | nil => simp
  | cons c t ih => simp [isInput, ih]

/-! ## Claims C7 and C10 -/

/-- C7: whenever the external-audio override is active (`use_external_audio`
with a truthy path), a successful compilation contains zero audio-trim
stages from the original clips, maps the final audio from the external
audio input (input index `len(playlist)`), and carries the `-shortest`
truncation to the final video duration. -/
theorem c7_external_audio (ffmpegExec : Option String)
    (fileExists : String → Bool) (playlist : List SourceClip)
    (segments : List Segment) (settings : ExportSettings) (p : String)
    (cmd : List Arg) (hu : settings.use_external_audio = true)
    (hp : settings.external_audio_path = some p) (hne : p ≠ "")
    (hok : build_command ffmpegExec fileExists playlist segments settings =
      .ok cmd) :
    atrimStages cmd = [] ∧ Arg.mapExtAudio playlist.length ∈ cmd ∧
      Arg.shortest ∈ cmd := by
  have hext : extAudioPath settings = some p := by
    simp [extAudioPath, hu, hp, hne]
  cases ffmpegExec with
  | none => simp [build_command] at hok
  | some exe =>
    by_cases h1 : playlist.isEmpty
    · simp [build_command, h1] at hok
    · by_cases h2 : segments.isEmpty
      · simp [build_command, h1, h2] at hok
      · cases hin : inputArgs fileExists playlist with
        | error e => simp [build_command, h1, h2, hin] at hok
        | ok inputs =>
          by_cases h3 : fileExists p
          · by_cases h4 : (trimUnits playlist segments).isEmpty
            · simp [build_command, h1, h2, hin, checkExtAudio, hext, h3, h4]
                at hok
            · simp only [build_command, h1, h2, hin, checkExtAudio, hext, h3,
                h4, Bool.false_eq_true, if_false, if_true, ite_false, ite_true,
                Except.ok.injEq, if_neg, reduceIte] at hok
              subst hok
              have hinsh := inputArgs_ok fileExists playlist inputs hin
              subst hinsh
              refine ⟨?_, ?_, ?_⟩
              · simp [atrimStages, cmdFilterStages_append, cmdFilterStages_inputs,
                  cmdFilterStages_codecArgs, cmdFilterStages, List.filter_append,
                  filterParts_filter_atrim _ _ hu, isAtrim]
                intro a x hx ha
                have h0 := cmdFilterStages_codecArgs settings
                rw [cmdFilterStages, List.flatMap_eq_nil_iff] at h0
                rw [h0 x hx] at ha
                exact absurd ha (List.not_mem_nil _)
              · simp [List.mem_append]
              · simp [List.mem_append]
          · simp [build_command, h1, h2, hin, checkExtAudio, hext, h3] at hok

/-- Settings for the C7 witness: mp4 export with external audio. -/
def c7settings : ExportSettings :=
  ⟨"out.mp4", "mp4", 10, 640, 480, true, some "ext.mp3", 30, false⟩

/-- The command compiled in the C7 witness scenario. -/
def c7cmd : List Arg :=
  [Arg.str "ffmpeg", Arg.str "-y", Arg.input "a.mp4", Arg.input "ext.mp3",
   Arg.shortest, Arg.str "-filter_complex",
   Arg.filterComplex [FilterStage.vtrim 0 0 0 1 640 480,
     FilterStage.concatV [(0, 0)] 1],
   Arg.str "-map", Arg.mapOutV, Arg.str "-map", Arg.mapExtAudio 1] ++
  codecArgs c7settings

/-- C7 witness: one 1000 ms clip, one keep segment, external audio set. -/
theorem c7_external_audio_witness :
    atrimStages c7cmd = [] ∧ Arg.mapExtAudio 1 ∈ c7cmd ∧
      Arg.shortest ∈ c7cmd :=
  c7_external_audio (some "ffmpeg") (fun _ => true)
    [⟨"a.mp4", 1000, 640, 480, 0, 1000⟩] [⟨0, 1000⟩] c7settings "ext.mp3"
    c7cmd rfl rfl (by decide)
    (by simp [build_command, inputArgs, checkExtAudio, extAudioPath, trimUnits,
      filterParts, c7settings, c7cmd, List.enum, List.enumFrom])

/-- C10: when `use_external_audio` is set but `external_audio_path` is
`None`, a successful compilation emits no audio-trim stage, appends an
original-audio concatenation stage declaring `n` equal to the number of
video trim units but with zero input pads, maps the final audio from
that concat pad, declares only the playlist clips as inputs (no
external-audio input), and omits the `-shortest` truncation. -/
theorem c10_ext_audio_without_path (ffmpegExec : Option String)
    (fileExists : String → Bool) (playlist : List SourceClip)
    (segments : List Segment) (settings : ExportSettings) (cmd : List Arg)
    (hu : settings.use_external_audio = true)
    (hp : settings.external_audio_path = none)
    (hok : build_command ffmpegExec fileExists playlist segments settings =
      .ok cmd) :
    atrimStages cmd = [] ∧
    FilterStage.concatA [] ((vtrimStages cmd).length) ∈ cmdFilterStages cmd ∧
    Arg.mapOutA ∈ cmd ∧
    (∀ i, Arg.mapExtAudio i ∉ cmd) ∧
    Arg.shortest ∉ cmd ∧
    cmd.filter isInput = playlist.map fun c => Arg.input c.path := by
  have hext : extAudioPath settings = none := by
    simp [extAudioPath, hu, hp]
  cases ffmpegExec with
  | none => simp [build_command] at hok
  | some exe =>
    by_cases h1 : playlist.isEmpty
    · simp [build_command, h1] at hok
    · by_cases h2 : segments.isEmpty
      · simp [build_command, h1, h2] at hok
      · cases hin : inputArgs fileExists playlist with
        | error e => simp [build_command, h1, h2, hin] at hok
        | ok inputs =>
          by_cases h4 : (trimUnits playlist segments).isEmpty
          · simp [build_command, h1, h2, hin, checkExtAudio, hext, h4] at hok
          · simp only [build_command, h1, h2, hin, checkExtAudio, hext, h4, hu,
              Bool.false_eq_true, if_false, if_true, ite_false, ite_true,
              Except.ok.injEq, if_neg, reduceIte] at hok
            have hinsh := inputArgs_ok fileExists playlist inputs hin
            subst hinsh
            have hst : cmdFilterStages cmd =
                filterParts (trimUnits playlist segments) settings ++
                  [FilterStage.concatV
                    (List.map (fun u => (u.segIdx, u.clipIdx))
                      (trimUnits playlist segments))
                    (trimUnits playlist segments).length,
                   FilterStage.concatA [] (trimUnits playlist segments).length] := by
              rw [← hok]
              simp only [cmdFilterStages_append, cmdFilterStages_inputs,
                cmdFilterStages_codecArgs, cmdFilterStages_cons,
                cmdFilterStages_nil]
              simp
            have hlen : (vtrimStages cmd).length =
                (trimUnits playlist segments).length := by
              rw [vtrimStages, hst]
              simp [List.filter_append, filterParts_filter_vtrim, isVtrim]
            refine ⟨?_, ?_, ?_, ?_, ?_, ?_⟩
            · rw [atrimStages, hst]
              simp [List.filter_append, filterParts_filter_atrim _ _ hu, isAtrim]
            · rw [hlen, hst]
              simp
            · rw [← hok]; simp
            · intro i
              rw [← hok]
              simp [List.mem_append, List.mem_map, mapExtAudio_not_mem_codecArgs]
            · rw [← hok]
              simp [List.mem_append, List.mem_map, shortest_not_mem_codecArgs]
            · rw [← hok]
              simp only [List.filter_append, inputs_filter_isInput,
                codecArgs_filter_isInput]
              simp [isInput]

/-- Settings for the C10 witness: `use_external_audio` true, no path. -/
def c10settings : ExportSettings :=
  ⟨"out.mp4", "mp4", 10, 640, 480, true, none, 30, false⟩

/-- The command compiled in the C10 witness scenario. -/
def c10cmd : List Arg :=
  [Arg.str "ffmpeg", Arg.str "-y", Arg.input "a.mp4",
   Arg.str "-filter_complex",
   Arg.filterComplex [FilterStage.vtrim 0 0 0 1 640 480,
     FilterStage.concatV [(0, 0)] 1, FilterStage.concatA [] 1],
   Arg.str "-map", Arg.mapOutV, Arg.str "-map", Arg.mapOutA] ++
  codecArgs c10settings

/-- C10 witness: one 1000 ms clip, one keep segment, `use_external_audio`
set with no path. -/
theorem c10_ext_audio_without_path_witness :
    atrimStages c10cmd = [] ∧
    FilterStage.concatA [] ((vtrimStages c10cmd).length) ∈
      cmdFilterStages c10cmd ∧
    Arg.mapOutA ∈ c10cmd ∧
    (∀ i, Arg.mapExtAudio i ∉ c10cmd) ∧
    Arg.shortest ∉ c10cmd ∧
    c10cmd.filter isInput =
      ([⟨"a.mp4", 1000, 640, 480, 0, 1000⟩] : List SourceClip).map
        fun c => Arg.input c.path :=
  c10_ext_audio_without_path (some "ffmpeg") (fun _ => true)
    [⟨"a.mp4", 1000, 640, 480, 0, 1000⟩] [⟨0, 1000⟩] c10settings c10cmd
    rfl rfl
    (by simp [build_command, inputArgs, checkExtAudio, extAudioPath, trimUnits,
      filterParts, c10settings, c10cmd, List.enum, List.enumFrom])
